import Mathlib

/-
Verification of the authoritative server core of the threejs-game-prototype
repository (src/common.ts, src/server.ts, src/client.ts).

Shallow embedding conventions:
  - JavaScript numbers used as wire int32 fields are modelled as Int with an
    explicit isI32 range predicate; byte buffers are List Nat.
  - The packet codec bodies are generated by the typia library and are not
    part of the repository source; only the per-class field declarations and
    the PacketKind discriminants are.  The codec below is therefore modelled
    from the spec (section 6 wire shapes, section 9 fixed-width integer
    encodings), using the PacketKind enum values of src/common.ts.
  - Kinematic quantities (positions, speeds, times) are modelled as real
    numbers, the exact idealization of the double-precision arithmetic in
    updatePlayerPos.
  - JavaScript Map and Set collections are modelled as insertion-ordered
    lists; Set.add of a freshly allocated object always appends (object
    identity), Set.add of a primitive deduplicates by value.
  - A JavaScript runtime error (the TypeError raised by the non-null
    assertion players.get(id)! on a missing id) is modelled as a none result
    of the surrounding operation.
-/

namespace GameCore

/-- Range of a 32-bit signed wire integer. -/
def isI32 (v : Int) : Prop := -2147483648 ≤ v ∧ v < 2147483648

instance (v : Int) : Decidable (isI32 v) := by
  unfold isI32; infer_instance

/-- Modelled from the spec: fixed-width little-endian encoding of an int32
field, two's complement.  The typia-generated field codec is not in src. -/
def encodeI32 (v : Int) : List Nat :=
  [(v % 4294967296).toNat % 256,
   (v % 4294967296).toNat / 256 % 256,
   (v % 4294967296).toNat / 65536 % 256,
   (v % 4294967296).toNat / 16777216 % 256]

/-- Reinterpret a nonnegative accumulated value as a signed int32. -/
def i32FromNat (n : Nat) : Int :=
  if n % 4294967296 < 2147483648 then ((n % 4294967296 : Nat) : Int)
  else ((n % 4294967296 : Nat) : Int) - 4294967296

/-- Modelled from the spec: decoder for one int32 field, returning the value
and the remaining bytes. -/
def decodeI32 : List Nat → Option (Int × List Nat)
  | b0 :: b1 :: b2 :: b3 :: rest =>
      some (i32FromNat (b0 + 256 * b1 + 65536 * b2 + 16777216 * b3), rest)
  | _ => none

/-- One entry of a PlayerJoinBatch payload (src/common.ts PlayerJoin). -/
structure PlayerJoin where
  id : Int
  x : Int
  y : Int
  color : Int
deriving DecidableEq

/-- One entry of a PlayerMovingBatch payload and the payload of a
PlayerMoving packet (src/common.ts PlayerMove / PlayerMovingPacket). -/
structure PlayerMove where
  id : Int
  targetX : Int
  targetY : Int
deriving DecidableEq

/-- In-memory packets of src/common.ts, without the GameMap packet (the
claims cover the five participant-protocol kinds). -/
inductive Packet where
  | hello (id x y color : Int)
  | playerJoinBatch (players : List PlayerJoin)
  | playerLeftBatch (playerIds : List Int)
  | playerMoving (id targetX targetY : Int)
  | playerMovingBatch (moves : List PlayerMove)
deriving DecidableEq

/-- Discriminant values of the PacketKind enum in src/common.ts
(Hello = 0, GameMap = 1, PlayerJoinBatch = 2, PlayerLeftBatch = 3,
PlayerMoving = 4, PlayerMovingBatch = 5). -/
def Packet.kindCode : Packet → Nat
  | .hello _ _ _ _ => 0
  | .playerJoinBatch _ => 2
  | .playerLeftBatch _ => 3
  | .playerMoving _ _ _ => 4
  | .playerMovingBatch _ => 5

/-- Modelled from the spec: a repeated field is encoded as an int32 count
followed by the encodings of its items. -/
def encodeListOf {α : Type} (enc : α → List Nat) (xs : List α) : List Nat :=
  encodeI32 (xs.length : Int) ++ (xs.map enc).flatten

/-- Decode a known number of items, threading the remaining bytes. -/
def decodeItems {α : Type} (dec : List Nat → Option (α × List Nat)) :
    Nat → List Nat → Option (List α × List Nat)
  | 0, bs => some ([], bs)
  | k + 1, bs =>
    match dec bs with
    | none => none
    | some (x, bs1) =>
      match decodeItems dec k bs1 with
      | none => none
      | some (xs, bs2) => some (x :: xs, bs2)

/-- Modelled from the spec: decode a count-prefixed repeated field. -/
def decodeListOf {α : Type} (dec : List Nat → Option (α × List Nat))
    (bs : List Nat) : Option (List α × List Nat) :=
  match decodeI32 bs with
  | none => none
  | some (len, bs1) => if len < 0 then none else decodeItems dec len.toNat bs1

/-- Field-by-field encoding of a PlayerJoin entry. -/
def encodePlayerJoin (p : PlayerJoin) : List Nat :=
  encodeI32 p.id ++ encodeI32 p.x ++ encodeI32 p.y ++ encodeI32 p.color

/-- Field-by-field decoding of a PlayerJoin entry. -/
def decodePlayerJoin (bs : List Nat) : Option (PlayerJoin × List Nat) :=
  match decodeI32 bs with
  | none => none
  | some (id, bs1) =>
    match decodeI32 bs1 with
    | none => none
    | some (x, bs2) =>
      match decodeI32 bs2 with
      | none => none
      | some (y, bs3) =>
        match decodeI32 bs3 with
        | none => none
        | some (color, bs4) => some (⟨id, x, y, color⟩, bs4)

/-- Field-by-field encoding of a PlayerMove entry. -/
def encodePlayerMove (m : PlayerMove) : List Nat :=
  encodeI32 m.id ++ encodeI32 m.targetX ++ encodeI32 m.targetY

/-- Field-by-field decoding of a PlayerMove entry. -/
def decodePlayerMove (bs : List Nat) : Option (PlayerMove × List Nat) :=
  match decodeI32 bs with
  | none => none
  | some (id, bs1) =>
    match decodeI32 bs1 with
    | none => none
    | some (tx, bs2) =>
      match decodeI32 bs2 with
      | none => none
      | some (ty, bs3) => some (⟨id, tx, ty⟩, bs3)

/-- Modelled from the spec: encode of a packet is its discriminant byte
followed by the kind-specific payload fields. -/
def Packet.encode : Packet → List Nat
  | .hello id x y color =>
      0 :: (encodeI32 id ++ encodeI32 x ++ encodeI32 y ++ encodeI32 color)
  | .playerJoinBatch players => 2 :: encodeListOf encodePlayerJoin players
  | .playerLeftBatch playerIds => 3 :: encodeListOf encodeI32 playerIds
  | .playerMoving id tx ty =>
      4 :: (encodeI32 id ++ encodeI32 tx ++ encodeI32 ty)
  | .playerMovingBatch moves => 5 :: encodeListOf encodePlayerMove moves

/-- Modelled from the spec: decode reads the discriminant, dispatches to the
kind-specific payload decoder, and requires the buffer to be consumed. -/
def Packet.decode (bs : List Nat) : Option Packet :=
  match bs with
  | [] => none
  | k :: rest =>
    if k = 0 then
      match decodePlayerJoin rest with
      | some (f, []) => some (.hello f.id f.x f.y f.color)
      | _ => none
    else if k = 2 then
      match decodeListOf decodePlayerJoin rest with
      | some (players, []) => some (.playerJoinBatch players)
      | _ => none
    else if k = 3 then
      match decodeListOf decodeI32 rest with
      | some (playerIds, []) => some (.playerLeftBatch playerIds)
      | _ => none
    else if k = 4 then
      match decodePlayerMove rest with
      | some (m, []) => some (.playerMoving m.id m.targetX m.targetY)
      | _ => none
    else if k = 5 then
      match decodeListOf decodePlayerMove rest with
      | some (moves, []) => some (.playerMovingBatch moves)
      | _ => none
    else none

/-- Well-formedness of a PlayerJoin entry: every field is in int32 range. -/
def wfPlayerJoin (p : PlayerJoin) : Prop :=
  isI32 p.id ∧ isI32 p.x ∧ isI32 p.y ∧ isI32 p.color

instance (p : PlayerJoin) : Decidable (wfPlayerJoin p) := by
  unfold wfPlayerJoin; infer_instance

/-- Well-formedness of a PlayerMove entry: every field is in int32 range. -/
def wfPlayerMove (m : PlayerMove) : Prop :=
  isI32 m.id ∧ isI32 m.targetX ∧ isI32 m.targetY

instance (m : PlayerMove) : Decidable (wfPlayerMove m) := by
  unfold wfPlayerMove; infer_instance

/-- Well-formed in-memory packet: all int32 fields in range and all repeated
fields short enough for their int32 count prefix. -/
def Packet.wf : Packet → Prop
  | .hello id x y color => isI32 id ∧ isI32 x ∧ isI32 y ∧ isI32 color
  | .playerJoinBatch players =>
      (players.length : Int) < 2147483648 ∧ ∀ p ∈ players, wfPlayerJoin p
  | .playerLeftBatch playerIds =>
      (playerIds.length : Int) < 2147483648 ∧ ∀ v ∈ playerIds, isI32 v
  | .playerMoving id tx ty => isI32 id ∧ isI32 tx ∧ isI32 ty
  | .playerMovingBatch moves =>
      (moves.length : Int) < 2147483648 ∧ ∀ m ∈ moves, wfPlayerMove m

instance (p : Packet) : Decidable p.wf := by
  unfold Packet.wf
  cases p <;> infer_instance

/-- Initial speed (src/common.ts BASE_PLAYER_SPEED). -/
def BASE_PLAYER_SPEED : ℝ := 5

/-- Speed increase per tick (src/common.ts ACCELERATION). -/
noncomputable def ACCELERATION : ℝ := 0.1

/-- Maximum speed cap (src/common.ts MAX_SPEED). -/
def MAX_SPEED : ℝ := 10

/-- Participant state (src/common.ts Player): id, authoritative position,
display color (null until assigned), optional move target, scalar speed.
Coordinates and speeds are modelled as exact reals. -/
structure Player where
  id : ℕ
  position : ℝ × ℝ
  color : Option ℕ
  moveTarget : Option (ℝ × ℝ)
  speed : ℝ

/-- The squared distance expression dx * dx + dy * dy of updatePlayerPos,
with dx and dy pointing from the first argument to the second. -/
def dist2 (a b : ℝ × ℝ) : ℝ :=
  (b.1 - a.1) * (b.1 - a.1) + (b.2 - a.2) * (b.2 - a.2)

/-- Distance between two positions, as computed by updatePlayerPos. -/
noncomputable def distance (a b : ℝ × ℝ) : ℝ :=
  Real.sqrt (dist2 a b)

/-- The movement integrator (src/common.ts updatePlayerPos): if a move
target is set, ramp the speed up to the cap, then either snap to the target
when the step would overshoot, advance along the normalized direction, or,
within 0.01 of the target, come to rest by clearing the target and
resetting the speed (the position is not touched in that branch). -/
noncomputable def updatePlayerPos (p : Player) (deltaTime : ℝ) : Player :=
  match p.moveTarget with
  | none => p
  | some t =>
    let speed := min (p.speed + ACCELERATION * deltaTime) MAX_SPEED
    let dx := t.1 - p.position.1
    let dy := t.2 - p.position.2
    let dist := Real.sqrt (dx * dx + dy * dy)
    if dist > 0.01 then
      if speed * deltaTime > dist then
        { p with speed := speed, position := t }
      else
        { p with speed := speed,
                 position := (p.position.1 + dx / dist * (speed * deltaTime),
                              p.position.2 + dy / dist * (speed * deltaTime)) }
    else
      { p with speed := BASE_PLAYER_SPEED, moveTarget := none }

/-- Iterated integration with a fixed deltaTime per step. -/
noncomputable def stepIter (dt : ℝ) : ℕ → Player → Player
  | 0, p => p
  | n + 1, p => stepIter dt n (updatePlayerPos p dt)

/-- Operations of the core that touch one participant: an inbound move
request (the client handler for a moving batch sets moveTarget and nothing
else) and one integration step. -/
inductive PlayerOp where
  | move (t : ℝ × ℝ)
  | step (dt : ℝ)

/-- Apply one participant-level operation. -/
noncomputable def applyOp (p : Player) : PlayerOp → Player
  | .move t => { p with moveTarget := some t }
  | .step dt => updatePlayerPos p dt

/-- Apply a sequence of participant-level operations. -/
noncomputable def applyOps (p : Player) (ops : List PlayerOp) : Player :=
  ops.foldl applyOp p

/-- Every integration step in the sequence uses a nonnegative deltaTime. -/
def nonnegSteps (ops : List PlayerOp) : Prop :=
  ∀ dt, PlayerOp.step dt ∈ ops → 0 ≤ dt

/-- Construction of a participant (new Player(id) in src/common.ts, with
the client immediately setting position and color from the Hello packet):
no move target, speed at BASE_PLAYER_SPEED. -/
def mkPlayer (id : ℕ) (pos : ℝ × ℝ) (color : Option ℕ) : Player :=
  ⟨id, pos, color, none, BASE_PLAYER_SPEED⟩

/-- Maximum participant count (src/server.ts MAX_PLAYERS). -/
def MAX_PLAYERS : ℕ := 10

/-- The authoritative server store and tick-window event sets
(src/server.ts ServerState).  The JavaScript Map from id to player is an
insertion-ordered list of players keyed by their id field; the Set fields
are insertion-ordered lists. -/
structure ServerState where
  nextPlayerId : ℕ
  players : List Player
  joinedIds : List ℕ
  leftIds : List ℕ
  moves : List PlayerMove

/-- The empty store a ServerState starts from. -/
def initialServerState : ServerState := ⟨0, [], [], [], []⟩

/-- Number of stored participants (this.players.size). -/
def ServerState.size (s : ServerState) : ℕ := s.players.length

/-- Lookup by id (this.players.get(id)). -/
def findPlayer (s : ServerState) (id : ℕ) : Option Player :=
  s.players.find? (fun p => p.id == id)

/-- Add to a Set of primitive values: deduplicates, keeps insertion order. -/
def setAdd (xs : List ℕ) (x : ℕ) : List ℕ :=
  if xs.contains x then xs else xs ++ [x]

/-- Map.set keyed by player id: replace an existing entry in place,
otherwise append. -/
def mapSet (ps : List Player) (p : Player) : List Player :=
  if ps.any (fun q => q.id == p.id) then
    ps.map (fun q => if q.id == p.id then p else q)
  else ps ++ [p]

/-- Construction of a server-side participant (new ServerPlayer(id, ws)):
spawn position (0, 0) (randomPlayerPosition in src/server.ts returns the
origin; the randomized variant is commented out), a color drawn at
connection time and passed in here in place of Math.random. -/
def mkServerPlayer (id : ℕ) (color : ℕ) : Player :=
  ⟨id, ((0 : ℝ), (0 : ℝ)), some color, none, BASE_PLAYER_SPEED⟩

/-- Outcome of ServerState.addPlayer: either the connection is closed with
a code and reason and no participant is returned, or the new participant. -/
inductive AddPlayerOutcome where
  | rejected (closeCode : ℕ) (closeReason : String)
  | added (player : Player)

/-- ServerState.addPlayer with the capacity limit as a parameter (the
source fixes it to the MAX_PLAYERS constant): reject and close when the
store is at capacity, otherwise allocate the next id and store the new
participant.  The color argument stands for the randomColor() draw. -/
def addPlayerWith (maxPlayers : ℕ) (s : ServerState) (color : ℕ) :
    AddPlayerOutcome × ServerState :=
  if maxPlayers ≤ s.players.length then
    (.rejected 1000 "Server is full", s)
  else
    (.added (mkServerPlayer s.nextPlayerId color),
     { s with nextPlayerId := s.nextPlayerId + 1,
              players := mapSet s.players (mkServerPlayer s.nextPlayerId color) })

/-- ServerState.addPlayer at the capacity of the source, MAX_PLAYERS. -/
def ServerState.addPlayer (s : ServerState) (color : ℕ) :
    AddPlayerOutcome × ServerState :=
  addPlayerWith MAX_PLAYERS s color

/-- ServerState.handleConnection: add the player and, on success, record
the join event. -/
def handleConnection (s : ServerState) (color : ℕ) : ServerState :=
  match s.addPlayer color with
  | (.rejected _ _, s1) => s1
  | (.added p, s1) => { s1 with joinedIds := setAdd s1.joinedIds p.id }

/-- ServerState.handleDisconnection: delete the participant from the store
and record the leave event. -/
def handleDisconnection (s : ServerState) (id : ℕ) : ServerState :=
  { s with players := s.players.filter (fun p => !(p.id == id)),
           leftIds := setAdd s.leftIds id }

/-- ServerState.handlePlayerMoving: add the freshly decoded packet object
to the moves Set.  Each call decodes a new object, so the reference-keyed
Set always grows by one entry at the end, even when an earlier request
carried the same id or the same payload. -/
def handlePlayerMoving (s : ServerState) (mv : PlayerMove) : ServerState :=
  { s with moves := s.moves ++ [mv] }

/-- One entry of the join batch built by the server: the in-memory object
with the current participant snapshot (id, position, color hex). -/
structure JoinEntry where
  id : ℕ
  x : ℝ
  y : ℝ
  color : ℕ

/-- The object literal built for one joined id in createBatchJoinsPacket. -/
def playerJoinEntry (p : Player) : JoinEntry :=
  ⟨p.id, p.position.1, p.position.2, p.color.getD 0⟩

/-- The Array.from(joinedIds).map body of createBatchJoinsPacket: look each
joined id up in the store with a non-null assertion.  A missing id makes
players.get(id)! produce undefined and the field access throw; the throw is
modelled as a none result. -/
def buildJoinEntries (s : ServerState) : List ℕ → Option (List JoinEntry)
  | [] => some []
  | id :: rest =>
    match findPlayer s id with
    | none => none
    | some p => (buildJoinEntries s rest).map (fun es => playerJoinEntry p :: es)

/-- ServerState.createBatchJoinsPacket: null when no one joined this
window, otherwise the join entries for every joined id.  The outer none
models the TypeError thrown when a joined id is no longer in the store. -/
def createBatchJoinsPacket (s : ServerState) : Option (Option (List JoinEntry)) :=
  if s.joinedIds.isEmpty then some none
  else (buildJoinEntries s s.joinedIds).map some

/-- ServerState.createBatchLeftPacket: null when nobody left this window,
otherwise the list of ids that left. -/
def createBatchLeftPacket (s : ServerState) : Option (List ℕ) :=
  if s.leftIds.isEmpty then none else some s.leftIds

/-- ServerState.createBatchMovingPacket: null when no moves are pending,
otherwise the pending moves in insertion order. -/
def createBatchMovingPacket (s : ServerState) : Option (List PlayerMove) :=
  if s.moves.isEmpty then none else some s.moves

/-- ServerState.clearTickData: drain the three tick-window sets. -/
def clearTickData (s : ServerState) : ServerState :=
  { s with joinedIds := [], leftIds := [], moves := [] }

/-- Capacity-2 insert used by the scenario of C2, with color draw 0. -/
def insertCap2 (s : ServerState) : AddPlayerOutcome × ServerState :=
  addPlayerWith 2 s 0

/-- The participant of the C3 counterexample: at the origin, heading to
(0.511, 0) at base speed. -/
noncomputable def cexPlayer : Player :=
  ⟨0, ((0 : ℝ), (0 : ℝ)), none, some ((0.511 : ℝ), (0 : ℝ)), BASE_PLAYER_SPEED⟩

/-- Window state of the C5 counterexample: two move requests for id 7 with
targets (1,1) then (2,2) arriving in one window. -/
def movesTwiceState : ServerState :=
  handlePlayerMoving (handlePlayerMoving initialServerState ⟨7, 1, 1⟩) ⟨7, 2, 2⟩

/-- Window state of the C7 counterexample: a single move request for id 7,
which is not in the (empty) store. -/
def unknownMoveState : ServerState :=
  handlePlayerMoving initialServerState ⟨7, 5, 5⟩

/-- Failing input of C6: two participants join in one window, the second
disconnects before the flush. -/
def joinLeaveState : ServerState :=
  handleDisconnection (handleConnection (handleConnection initialServerState 0) 0) 1

/-- State of the C9 counterexample: id 5 is recorded as joined but absent
from the store. -/
def staleJoinState : ServerState := ⟨6, [], [5], [], []⟩

/-- A populated mid-window state used by witnesses: two stored players,
player 1 joined this window, player 0 left, one pending move. -/
def witnessState : ServerState :=
  ⟨2, [mkServerPlayer 0 9, mkServerPlayer 1 9], [1], [0], [⟨0, 1, 1⟩]⟩

theorem decodeI32_encodeI32 (v : Int) (h : isI32 v) (rest : List Nat) :
    decodeI32 (encodeI32 v ++ rest) = some (v, rest) := by
  obtain ⟨h1, h2⟩ := h
  simp only [encodeI32, decodeI32, List.cons_append, List.nil_append,
    i32FromNat, Option.some.injEq, Prod.mk.injEq, and_true]
  split <;> omega

theorem decodeItems_encodeListOf {α : Type}
    (dec : List Nat → Option (α × List Nat)) (enc : α → List Nat)
    (xs : List α)
    (hitem : ∀ x ∈ xs, ∀ rest, dec (enc x ++ rest) = some (x, rest))
    (rest : List Nat) :
    decodeItems dec xs.length ((xs.map enc).flatten ++ rest) = some (xs, rest) := by
  induction xs with
  | nil => simp [decodeItems]
  | cons x xs ih =>
    have hx := hitem x (by simp)
    have hxs : ∀ y ∈ xs, ∀ r, dec (enc y ++ r) = some (y, r) := by
      intro y hy r
      exact hitem y (by simp [hy]) r
    simp only [List.map_cons, List.flatten_cons, List.length_cons,
      List.append_assoc, decodeItems, hx, ih hxs]

theorem decodeListOf_encodeListOf {α : Type}
    (dec : List Nat → Option (α × List Nat)) (enc : α → List Nat)
    (xs : List α)
    (hlen : (xs.length : Int) < 2147483648)
    (hitem : ∀ x ∈ xs, ∀ rest, dec (enc x ++ rest) = some (x, rest))
    (rest : List Nat) :
    decodeListOf dec (encodeListOf enc xs ++ rest) = some (xs, rest) := by
  have hlen32 : isI32 (xs.length : Int) := ⟨by omega, hlen⟩
  have hnn : ¬ ((xs.length : Int) < 0) := by omega
  simp only [encodeListOf, List.append_assoc, decodeListOf,
    decodeI32_encodeI32 _ hlen32]
  rw [if_neg hnn, Int.toNat_natCast]
  exact decodeItems_encodeListOf dec enc xs hitem rest

theorem decodePlayerJoin_encodePlayerJoin (p : PlayerJoin) (h : wfPlayerJoin p)
    (rest : List Nat) :
    decodePlayerJoin (encodePlayerJoin p ++ rest) = some (p, rest) := by
  obtain ⟨h1, h2, h3, h4⟩ := h
  simp only [encodePlayerJoin, List.append_assoc, decodePlayerJoin,
    decodeI32_encodeI32 _ h1, decodeI32_encodeI32 _ h2,
    decodeI32_encodeI32 _ h3, decodeI32_encodeI32 _ h4]

theorem decodePlayerMove_encodePlayerMove (m : PlayerMove) (h : wfPlayerMove m)
    (rest : List Nat) :
    decodePlayerMove (encodePlayerMove m ++ rest) = some (m, rest) := by
  obtain ⟨h1, h2, h3⟩ := h
  simp only [encodePlayerMove, List.append_assoc, decodePlayerMove,
    decodeI32_encodeI32 _ h1, decodeI32_encodeI32 _ h2,
    decodeI32_encodeI32 _ h3]

/-- C1: for every well-formed in-memory packet of the five participant
protocol kinds, decoding the bytes produced by encode yields a packet equal
to the original, for every kind and every payload field (round-trip law). -/
theorem Packet.decode_encode (p : Packet) (h : p.wf) :
    Packet.decode (Packet.encode p) = some p := by
  cases p with
  | hello id x y color =>
    obtain ⟨h1, h2, h3, h4⟩ := h
    have hp : wfPlayerJoin ⟨id, x, y, color⟩ := ⟨h1, h2, h3, h4⟩
    have hdec := decodePlayerJoin_encodePlayerJoin ⟨id, x, y, color⟩ hp []
    simp only [encodePlayerJoin, List.append_nil, List.append_assoc] at hdec
    simp only [Packet.encode, Packet.decode, List.append_assoc]
    norm_num [hdec]
  | playerJoinBatch players =>
    obtain ⟨hlen, hitems⟩ := h
    have hdec := decodeListOf_encodeListOf decodePlayerJoin encodePlayerJoin
      players hlen
      (fun x hx => decodePlayerJoin_encodePlayerJoin x (hitems x hx)) []
    simp only [List.append_nil] at hdec
    simp only [Packet.encode, Packet.decode]
    norm_num [hdec]
  | playerLeftBatch playerIds =>
    obtain ⟨hlen, hitems⟩ := h
    have hdec := decodeListOf_encodeListOf decodeI32 encodeI32 playerIds
      hlen (fun x hx => decodeI32_encodeI32 x (hitems x hx)) []
    simp only [List.append_nil] at hdec
    simp only [Packet.encode, Packet.decode]
    norm_num [hdec]
  | playerMoving id tx ty =>
    obtain ⟨h1, h2, h3⟩ := h
    have hm : wfPlayerMove ⟨id, tx, ty⟩ := ⟨h1, h2, h3⟩
    have hdec := decodePlayerMove_encodePlayerMove ⟨id, tx, ty⟩ hm []
    simp only [encodePlayerMove, List.append_nil, List.append_assoc] at hdec
    simp only [Packet.encode, Packet.decode, List.append_assoc]
    norm_num [hdec]
  | playerMovingBatch moves =>
    obtain ⟨hlen, hitems⟩ := h
    have hdec := decodeListOf_encodeListOf decodePlayerMove encodePlayerMove
      moves hlen
      (fun x hx => decodePlayerMove_encodePlayerMove x (hitems x hx)) []
    simp only [List.append_nil] at hdec
    simp only [Packet.encode, Packet.decode]
    norm_num [hdec]

/-- C1 witness: the round-trip law applied to one concrete packet of each
kind. -/
theorem Packet.decode_encode_witness :
    Packet.decode (Packet.encode (.hello 1 (-2) 3 4)) = some (.hello 1 (-2) 3 4)
    ∧ Packet.decode (Packet.encode (.playerJoinBatch [⟨1, 2, 3, 4⟩, ⟨5, -6, 7, 8⟩]))
        = some (.playerJoinBatch [⟨1, 2, 3, 4⟩, ⟨5, -6, 7, 8⟩])
    ∧ Packet.decode (Packet.encode (.playerLeftBatch [3, 9]))
        = some (.playerLeftBatch [3, 9])
    ∧ Packet.decode (Packet.encode (.playerMoving 7 2 2))
        = some (.playerMoving 7 2 2)
    ∧ Packet.decode (Packet.encode (.playerMovingBatch [⟨7, 1, 1⟩]))
        = some (.playerMovingBatch [⟨7, 1, 1⟩]) :=
  ⟨Packet.decode_encode _ (by decide),
   Packet.decode_encode _ (by decide),
   Packet.decode_encode _ (by decide),
   Packet.decode_encode _ (by decide),
   Packet.decode_encode _ (by decide)⟩

theorem dist2_nonneg (a b : ℝ × ℝ) : 0 ≤ dist2 a b := by
  unfold dist2
  have h1 := mul_self_nonneg (b.1 - a.1)
  have h2 := mul_self_nonneg (b.2 - a.2)
  linarith

theorem distance_nonneg (a b : ℝ × ℝ) : 0 ≤ distance a b :=
  Real.sqrt_nonneg _

theorem distance_self (a : ℝ × ℝ) : distance a a = 0 := by
  simp [distance, dist2]

theorem sqrt_dist2 (a b : ℝ × ℝ) :
    Real.sqrt ((b.1 - a.1) * (b.1 - a.1) + (b.2 - a.2) * (b.2 - a.2))
      = distance a b := rfl

theorem updatePlayerPos_none (p : Player) (dt : ℝ) (h : p.moveTarget = none) :
    updatePlayerPos p dt = p := by
  simp [updatePlayerPos, h]

theorem updatePlayerPos_arrive (p : Player) (t : ℝ × ℝ) (dt : ℝ)
    (h : p.moveTarget = some t) (hd : distance p.position t ≤ 0.01) :
    updatePlayerPos p dt
      = { p with speed := BASE_PLAYER_SPEED, moveTarget := none } := by
  have hd2 : ¬ (Real.sqrt ((t.1 - p.position.1) * (t.1 - p.position.1) +
      (t.2 - p.position.2) * (t.2 - p.position.2)) > 0.01) := by
    rw [sqrt_dist2]; exact not_lt.mpr hd
  simp only [updatePlayerPos, h]
  rw [if_neg hd2]

theorem updatePlayerPos_snap (p : Player) (t : ℝ × ℝ) (dt : ℝ)
    (h : p.moveTarget = some t) (hd : 0.01 < distance p.position t)
    (hov : distance p.position t
        < min (p.speed + ACCELERATION * dt) MAX_SPEED * dt) :
    updatePlayerPos p dt
      = { p with speed := min (p.speed + ACCELERATION * dt) MAX_SPEED,
                 position := t } := by
  have hd2 : Real.sqrt ((t.1 - p.position.1) * (t.1 - p.position.1) +
      (t.2 - p.position.2) * (t.2 - p.position.2)) > 0.01 := by
    rw [sqrt_dist2]; exact hd
  have hov2 : min (p.speed + ACCELERATION * dt) MAX_SPEED * dt >
      Real.sqrt ((t.1 - p.position.1) * (t.1 - p.position.1) +
        (t.2 - p.position.2) * (t.2 - p.position.2)) := by
    rw [sqrt_dist2]; exact hov
  simp only [updatePlayerPos, h]
  rw [if_pos hd2, if_pos hov2]

theorem updatePlayerPos_mid (p : Player) (t : ℝ × ℝ) (dt : ℝ)
    (h : p.moveTarget = some t) (hd : 0.01 < distance p.position t)
    (hov : min (p.speed + ACCELERATION * dt) MAX_SPEED * dt
        ≤ distance p.position t) :
    updatePlayerPos p dt
      = { p with speed := min (p.speed + ACCELERATION * dt) MAX_SPEED,
                 position :=
                   (p.position.1 + (t.1 - p.position.1) / distance p.position t
                      * (min (p.speed + ACCELERATION * dt) MAX_SPEED * dt),
                    p.position.2 + (t.2 - p.position.2) / distance p.position t
                      * (min (p.speed + ACCELERATION * dt) MAX_SPEED * dt)) } := by
  have hd2 : Real.sqrt ((t.1 - p.position.1) * (t.1 - p.position.1) +
      (t.2 - p.position.2) * (t.2 - p.position.2)) > 0.01 := by
    rw [sqrt_dist2]; exact hd
  have hov2 : ¬ (min (p.speed + ACCELERATION * dt) MAX_SPEED * dt >
      Real.sqrt ((t.1 - p.position.1) * (t.1 - p.position.1) +
        (t.2 - p.position.2) * (t.2 - p.position.2))) := by
    rw [sqrt_dist2]; exact not_lt.mpr hov
  simp only [updatePlayerPos, h]
  rw [if_pos hd2, if_neg hov2, sqrt_dist2]

theorem distance_mid_step (a t : ℝ × ℝ) (m : ℝ) (hd : 0 < distance a t) :
    distance (a.1 + (t.1 - a.1) / distance a t * m,
              a.2 + (t.2 - a.2) / distance a t * m) t
      = |distance a t - m| := by
  set d := distance a t with hdef
  have hne : d ≠ 0 := ne_of_gt hd
  have key : dist2 (a.1 + (t.1 - a.1) / d * m, a.2 + (t.2 - a.2) / d * m) t
      = ((d - m) / d) ^ 2 * dist2 a t := by
    simp only [dist2]
    field_simp
    ring
  have hstep : distance (a.1 + (t.1 - a.1) / d * m, a.2 + (t.2 - a.2) / d * m) t
      = Real.sqrt (((d - m) / d) ^ 2 * dist2 a t) := by
    unfold distance
    rw [key]
  have hback : Real.sqrt (dist2 a t) = d := by
    rw [hdef]
    rfl
  rw [hstep, Real.sqrt_mul (sq_nonneg _), Real.sqrt_sq_eq_abs, hback,
    abs_div, abs_of_pos hd, div_mul_cancel₀ _ hne]

/-- C4: when the move target is set, one integration step with nonnegative
deltaTime never leaves the participant farther from the target than it
started (the nonnegative-speed premise is the stored-speed invariant of the
data model). -/
theorem step_never_farther (p : Player) (t : ℝ × ℝ) (dt : ℝ)
    (h : p.moveTarget = some t) (hs : 0 ≤ p.speed) (hdt : 0 ≤ dt) :
    distance (updatePlayerPos p dt).position t ≤ distance p.position t := by
  have hacc : (0 : ℝ) ≤ ACCELERATION := by norm_num [ACCELERATION]
  have hsp : 0 ≤ min (p.speed + ACCELERATION * dt) MAX_SPEED := by
    refine le_min ?_ ?_
    · have := mul_nonneg hacc hdt
      linarith
    · norm_num [MAX_SPEED]
  have hm : 0 ≤ min (p.speed + ACCELERATION * dt) MAX_SPEED * dt :=
    mul_nonneg hsp hdt
  rcases le_or_lt (distance p.position t) 0.01 with hle | hgt
  · rw [updatePlayerPos_arrive p t dt h hle]
  · rcases le_or_lt (min (p.speed + ACCELERATION * dt) MAX_SPEED * dt)
        (distance p.position t) with hml | hmg
    · rw [updatePlayerPos_mid p t dt h hgt hml]
      have hpos : 0 < distance p.position t := lt_trans (by norm_num) hgt
      have hrw := distance_mid_step p.position t
        (min (p.speed + ACCELERATION * dt) MAX_SPEED * dt) hpos
      rw [hrw, abs_of_nonneg (by linarith)]
      linarith
    · rw [updatePlayerPos_snap p t dt h hgt hmg]
      have : distance t t = 0 := distance_self t
      calc distance ({ p with
              speed := min (p.speed + ACCELERATION * dt) MAX_SPEED,
              position := t } : Player).position t
          = distance t t := rfl
        _ = 0 := distance_self t
        _ ≤ distance p.position t := distance_nonneg _ _

/-- C4 witness: the step from the origin toward (3, 0) at base speed with
deltaTime one second does not move the participant farther from its
target. -/
theorem step_never_farther_witness :
    distance (updatePlayerPos
        ⟨0, ((0 : ℝ), (0 : ℝ)), none, some ((3 : ℝ), (0 : ℝ)), BASE_PLAYER_SPEED⟩
        1).position ((3 : ℝ), (0 : ℝ))
      ≤ distance ((0 : ℝ), (0 : ℝ)) ((3 : ℝ), (0 : ℝ)) :=
  step_never_farther _ ((3 : ℝ), (0 : ℝ)) 1 rfl
    (by norm_num [BASE_PLAYER_SPEED]) (by norm_num)

/-- C10: within the 0.01 arrival band a single step only clears the move
target and resets the speed, leaving the position untouched, and a
participant with no move target is left entirely unchanged. -/
theorem arrival_freezes_position (p : Player) (dt : ℝ) :
    (∀ t, p.moveTarget = some t → distance p.position t ≤ 0.01 →
        updatePlayerPos p dt
          = { p with speed := BASE_PLAYER_SPEED, moveTarget := none })
    ∧ (p.moveTarget = none → updatePlayerPos p dt = p) :=
  ⟨fun t h hd => updatePlayerPos_arrive p t dt h hd,
   fun h => updatePlayerPos_none p dt h⟩

/-- C10 witness: a participant 0.005 units left of its target comes to rest
there, with its position unchanged and its speed reset. -/
theorem arrival_freezes_position_witness :
    updatePlayerPos
        ⟨0, ((0 : ℝ), (0 : ℝ)), none, some ((0.005 : ℝ), (0 : ℝ)), (7 : ℝ)⟩ 1
      = ⟨0, ((0 : ℝ), (0 : ℝ)), none, none, BASE_PLAYER_SPEED⟩ :=
  (arrival_freezes_position
      ⟨0, ((0 : ℝ), (0 : ℝ)), none, some ((0.005 : ℝ), (0 : ℝ)), (7 : ℝ)⟩ 1).1
    ((0.005 : ℝ), (0 : ℝ)) rfl
    (by
      have : distance ((0 : ℝ), (0 : ℝ)) ((0.005 : ℝ), (0 : ℝ))
          = Real.sqrt (0.000025 : ℝ) := by
        unfold distance dist2
        norm_num
      rw [this, show (0.000025 : ℝ) = 0.005 ^ 2 by norm_num,
        Real.sqrt_sq (by norm_num)]
      norm_num)

theorem updatePlayerPos_speed_bounds (p : Player) (dt : ℝ) (hdt : 0 ≤ dt)
    (h1 : BASE_PLAYER_SPEED ≤ p.speed) (h2 : p.speed ≤ MAX_SPEED) :
    BASE_PLAYER_SPEED ≤ (updatePlayerPos p dt).speed
    ∧ (updatePlayerPos p dt).speed ≤ MAX_SPEED := by
  have hacc : (0 : ℝ) ≤ ACCELERATION * dt :=
    mul_nonneg (by norm_num [ACCELERATION]) hdt
  cases hmt : p.moveTarget with
  | none =>
    rw [updatePlayerPos_none p dt hmt]
    exact ⟨h1, h2⟩
  | some t =>
    simp only [updatePlayerPos, hmt]
    split_ifs with hd hov
    · exact ⟨le_min (by unfold BASE_PLAYER_SPEED at h1 ⊢; linarith)
        (by norm_num [BASE_PLAYER_SPEED, MAX_SPEED]), min_le_right _ _⟩
    · exact ⟨le_min (by unfold BASE_PLAYER_SPEED at h1 ⊢; linarith)
        (by norm_num [BASE_PLAYER_SPEED, MAX_SPEED]), min_le_right _ _⟩
    · exact ⟨le_refl _, by norm_num [BASE_PLAYER_SPEED, MAX_SPEED]⟩

/-- C8: starting from a freshly constructed participant, any sequence of
inbound move requests and integration steps with nonnegative deltaTime
keeps the speed within the interval from BASE_PLAYER_SPEED = 5.0 to
MAX_SPEED = 10.0. -/
theorem speed_always_bounded (id : ℕ) (pos : ℝ × ℝ) (color : Option ℕ)
    (ops : List PlayerOp) (h : nonnegSteps ops) :
    BASE_PLAYER_SPEED ≤ (applyOps (mkPlayer id pos color) ops).speed
    ∧ (applyOps (mkPlayer id pos color) ops).speed ≤ MAX_SPEED := by
  suffices H : ∀ ops : List PlayerOp, ∀ p : Player, nonnegSteps ops →
      BASE_PLAYER_SPEED ≤ p.speed → p.speed ≤ MAX_SPEED →
      BASE_PLAYER_SPEED ≤ (applyOps p ops).speed
      ∧ (applyOps p ops).speed ≤ MAX_SPEED by
    exact H ops (mkPlayer id pos color) h (le_refl _)
      (by norm_num [mkPlayer, BASE_PLAYER_SPEED, MAX_SPEED])
  intro ops
  induction ops with
  | nil =>
    intro p _ h1 h2
    exact ⟨h1, h2⟩
  | cons op rest ih =>
    intro p hno h1 h2
    have hrest : nonnegSteps rest := fun dt hdt => hno dt (by simp [hdt])
    rw [show applyOps p (op :: rest) = applyOps (applyOp p op) rest from rfl]
    cases op with
    | move t => exact ih _ hrest h1 h2
    | step dt =>
      have hdt : 0 ≤ dt := hno dt (by simp)
      obtain ⟨g1, g2⟩ := updatePlayerPos_speed_bounds p dt hdt h1 h2
      exact ih _ hrest g1 g2

/-- C8 witness: a concrete operation sequence (a move request followed by
two integration steps) keeps the speed within bounds. -/
theorem speed_always_bounded_witness :
    BASE_PLAYER_SPEED ≤ (applyOps (mkPlayer 0 ((0 : ℝ), (0 : ℝ)) none)
        [.move ((3 : ℝ), (4 : ℝ)), .step 1, .step 2]).speed
    ∧ (applyOps (mkPlayer 0 ((0 : ℝ), (0 : ℝ)) none)
        [.move ((3 : ℝ), (4 : ℝ)), .step 1, .step 2]).speed ≤ MAX_SPEED :=
  speed_always_bounded 0 ((0 : ℝ), (0 : ℝ)) none _
    (by
      intro dt hdt
      simp only [List.mem_cons, List.not_mem_nil, or_false] at hdt
      rcases hdt with h | h | h
      · exact absurd h (by simp)
      · cases h; norm_num
      · cases h; norm_num)

/-- C2: inserting into a store already at the configured capacity fails by
closing the connection with reason Server is full and returning no
participant, and leaves the store untouched; with capacity 2, two inserts
into the empty store succeed with distinct ids 0 and 1, a third insert
fails, and the store still holds 2 participants. -/
theorem addPlayer_capacity :
    (∀ (m : ℕ) (s : ServerState) (c : ℕ), m ≤ s.players.length →
        addPlayerWith m s c = (AddPlayerOutcome.rejected 1000 "Server is full", s))
    ∧ (insertCap2 initialServerState).1
        = AddPlayerOutcome.added (mkServerPlayer 0 0)
    ∧ (insertCap2 (insertCap2 initialServerState).2).1
        = AddPlayerOutcome.added (mkServerPlayer 1 0)
    ∧ (insertCap2 (insertCap2 (insertCap2 initialServerState).2).2).1
        = AddPlayerOutcome.rejected 1000 "Server is full"
    ∧ (insertCap2 (insertCap2 (insertCap2 initialServerState).2).2).2
        = (insertCap2 (insertCap2 initialServerState).2).2
    ∧ ((insertCap2 (insertCap2 (insertCap2 initialServerState).2).2).2).size = 2 := by
  refine ⟨?_, rfl, rfl, rfl, rfl, rfl⟩
  intro m s c hfull
  simp [addPlayerWith, hfull]

/-- C2 witness: the capacity law applied to the concrete two-player store at
capacity 2. -/
theorem addPlayer_capacity_witness :
    addPlayerWith 2 (insertCap2 (insertCap2 initialServerState).2).2 3
      = (AddPlayerOutcome.rejected 1000 "Server is full",
         (insertCap2 (insertCap2 initialServerState).2).2) :=
  addPlayer_capacity.1 2 _ 3 (by decide)

/-- C5 counterexample: two move requests for id 7 with targets (1,1) then
(2,2) in one window produce a moving batch with two entries for id 7, not
one (the moves Set stores each freshly decoded packet object). -/
theorem lastWriteWins_cex :
    createBatchMovingPacket movesTwiceState
      = some [⟨7, 1, 1⟩, ⟨7, 2, 2⟩]
    ∧ (movesTwiceState.moves.filter (fun mv => mv.id == 7)).length ≠ 1 :=
  ⟨rfl, by decide⟩

/-- C5 as amended: move requests in one window are appended in arrival
order, so after requests m1 then m2 the batch carries every earlier pending
move followed by m1 and then m2 — the latest request for an id is last in
the batch rather than the only entry for that id. -/
theorem moves_batch_appends (s : ServerState) (m1 m2 : PlayerMove) :
    createBatchMovingPacket (handlePlayerMoving (handlePlayerMoving s m1) m2)
      = some (s.moves ++ [m1, m2]) := by
  simp [handlePlayerMoving, createBatchMovingPacket]

/-- C7 counterexample: a move request whose id 7 is absent from the store
is still carried by the moving batch, contradicting that it does not appear
in the broadcast. -/
theorem unknown_move_broadcast_cex :
    findPlayer unknownMoveState 7 = none
    ∧ createBatchMovingPacket unknownMoveState = some [⟨7, 5, 5⟩] :=
  ⟨rfl, rfl⟩

/-- C7 as amended: a move request whose participant id is not in the store
is processed without error, leaves the store and the other tick-window sets
unchanged, and is included in the broadcast moving batch like any other
move (the server never filters moves by store membership). -/
theorem unknown_move_in_batch (s : ServerState) (mv : PlayerMove)
    (h : ∀ p ∈ s.players, (p.id : Int) ≠ mv.id) :
    (handlePlayerMoving s mv).players = s.players
    ∧ (handlePlayerMoving s mv).joinedIds = s.joinedIds
    ∧ (handlePlayerMoving s mv).leftIds = s.leftIds
    ∧ createBatchMovingPacket (handlePlayerMoving s mv)
        = some (s.moves ++ [mv]) := by
  refine ⟨rfl, rfl, rfl, ?_⟩
  simp [handlePlayerMoving, createBatchMovingPacket]

/-- C7 witness: the amended statement at the empty store and the move
request (3, 1, 2). -/
theorem unknown_move_in_batch_witness :
    (handlePlayerMoving initialServerState ⟨3, 1, 2⟩).players
        = initialServerState.players
    ∧ (handlePlayerMoving initialServerState ⟨3, 1, 2⟩).joinedIds
        = initialServerState.joinedIds
    ∧ (handlePlayerMoving initialServerState ⟨3, 1, 2⟩).leftIds
        = initialServerState.leftIds
    ∧ createBatchMovingPacket (handlePlayerMoving initialServerState ⟨3, 1, 2⟩)
        = some (initialServerState.moves ++ [⟨3, 1, 2⟩]) :=
  unknown_move_in_batch initialServerState ⟨3, 1, 2⟩
    (by intro p hp; simp [initialServerState] at hp)

/-- C6: evaluating the code at the failing input — ids 0 and 1 join in one
window and id 1 disconnects before the flush.  Both ids are still recorded
as joined, but building the join batch dereferences the deleted player
(players.get(1)! is undefined), modelled as the none result, and the left
batch reports id 1 instead of being empty. -/
theorem join_left_crash_eval :
    joinLeaveState.joinedIds = [0, 1]
    ∧ joinLeaveState.players.map Player.id = [0]
    ∧ createBatchJoinsPacket joinLeaveState = none
    ∧ createBatchLeftPacket joinLeaveState = some [1] :=
  ⟨rfl, rfl, rfl, rfl⟩

/-- C9 counterexample: with id 5 recorded as joined but missing from the
store, the join builder neither returns none-for-empty nor a packet; it
fails (the modelled TypeError), refuting the claim as stated. -/
theorem join_builder_fails_cex :
    staleJoinState.joinedIds ≠ []
    ∧ createBatchJoinsPacket staleJoinState = none :=
  ⟨by decide, rfl⟩

theorem findPlayer_id (s : ServerState) (id : ℕ) (p : Player)
    (h : findPlayer s id = some p) : p.id = id := by
  have := List.find?_some h
  simpa using this

theorem buildJoinEntries_ok (s : ServerState) (ids : List ℕ)
    (h : ∀ id ∈ ids, ∃ p, findPlayer s id = some p) :
    ∃ es, buildJoinEntries s ids = some es ∧ es.map JoinEntry.id = ids := by
  induction ids with
  | nil => exact ⟨[], rfl, rfl⟩
  | cons id rest ih =>
    obtain ⟨p, hp⟩ := h id (by simp)
    obtain ⟨es, hes, hmap⟩ := ih (fun j hj => h j (by simp [hj]))
    refine ⟨playerJoinEntry p :: es, ?_, ?_⟩
    · simp [buildJoinEntries, hp, hes]
    · simp [hmap, playerJoinEntry, findPlayer_id s id p hp]

/-- C9 as amended: the left and moving builders return none exactly when
their set is empty and otherwise one entry per element; the join builder
does the same provided every joined id is still in the store (otherwise it
fails instead of producing a packet). -/
theorem batch_emptiness (s : ServerState)
    (h : ∀ id ∈ s.joinedIds, ∃ p, findPlayer s id = some p) :
    (createBatchJoinsPacket s = some none ↔ s.joinedIds = [])
    ∧ (s.joinedIds ≠ [] → ∃ entries,
        createBatchJoinsPacket s = some (some entries)
        ∧ entries.map JoinEntry.id = s.joinedIds)
    ∧ (createBatchLeftPacket s = none ↔ s.leftIds = [])
    ∧ (s.leftIds ≠ [] → createBatchLeftPacket s = some s.leftIds)
    ∧ (createBatchMovingPacket s = none ↔ s.moves = [])
    ∧ (s.moves ≠ [] → createBatchMovingPacket s = some s.moves) := by
  obtain ⟨es, hes, hmap⟩ := buildJoinEntries_ok s s.joinedIds h
  refine ⟨?_, ?_, ?_, ?_, ?_, ?_⟩
  · constructor
    · intro hnone
      by_contra hne
      rw [createBatchJoinsPacket, if_neg (by simpa using hne), hes] at hnone
      simp at hnone
    · intro hempty
      rw [createBatchJoinsPacket, if_pos (by simpa using hempty)]
  · intro hne
    rw [createBatchJoinsPacket, if_neg (by simpa using hne), hes]
    exact ⟨es, rfl, hmap⟩
  · rw [createBatchLeftPacket]
    rcases hl : s.leftIds with _ | ⟨x, xs⟩ <;> simp
  · intro hne
    rw [createBatchLeftPacket, if_neg (by simpa using hne)]
  · rw [createBatchMovingPacket]
    rcases hm : s.moves with _ | ⟨x, xs⟩ <;> simp
  · intro hne
    rw [createBatchMovingPacket, if_neg (by simpa using hne)]

/-- C9 witness: the amended statement at a populated mid-window state whose
joined id is in the store. -/
theorem batch_emptiness_witness :
    (createBatchJoinsPacket witnessState = some none
        ↔ witnessState.joinedIds = [])
    ∧ (witnessState.joinedIds ≠ [] → ∃ entries,
        createBatchJoinsPacket witnessState = some (some entries)
        ∧ entries.map JoinEntry.id = witnessState.joinedIds)
    ∧ (createBatchLeftPacket witnessState = none ↔ witnessState.leftIds = [])
    ∧ (witnessState.leftIds ≠ [] →
        createBatchLeftPacket witnessState = some witnessState.leftIds)
    ∧ (createBatchMovingPacket witnessState = none ↔ witnessState.moves = [])
    ∧ (witnessState.moves ≠ [] →
        createBatchMovingPacket witnessState = some witnessState.moves) :=
  batch_emptiness witnessState
    (by
      intro id hid
      simp only [witnessState] at hid ⊢
      simp at hid
      subst hid
      exact ⟨mkServerPlayer 1 9, rfl⟩)

theorem distance_axis (x a y : ℝ) (h : x ≤ a) :
    distance (x, y) (a, y) = a - x := by
  unfold distance dist2
  simp only [Prod.fst, Prod.snd]
  rw [show (a - x) * (a - x) + (y - y) * (y - y) = (a - x) * (a - x) by ring]
  exact Real.sqrt_mul_self (by linarith)

theorem cex_step1 :
    updatePlayerPos cexPlayer (0.1 : ℝ)
      = ⟨0, ((0.501 : ℝ), (0 : ℝ)), none, some ((0.511 : ℝ), (0 : ℝ)),
          (5.01 : ℝ)⟩ := by
  have hd : distance ((0 : ℝ), (0 : ℝ)) ((0.511 : ℝ), (0 : ℝ)) = 0.511 := by
    rw [distance_axis 0 0.511 0 (by norm_num)]
    norm_num
  have hmin : min (BASE_PLAYER_SPEED + ACCELERATION * (0.1 : ℝ)) MAX_SPEED
      = 5.01 := by
    rw [min_eq_left (by norm_num [BASE_PLAYER_SPEED, ACCELERATION, MAX_SPEED])]
    norm_num [BASE_PLAYER_SPEED, ACCELERATION]
  rw [updatePlayerPos_mid cexPlayer ((0.511 : ℝ), (0 : ℝ)) 0.1 rfl
      (by
        show (0.01 : ℝ) < distance ((0 : ℝ), (0 : ℝ)) ((0.511 : ℝ), (0 : ℝ))
        rw [hd]; norm_num)
      (by
        show min (BASE_PLAYER_SPEED + ACCELERATION * (0.1 : ℝ)) MAX_SPEED
              * (0.1 : ℝ)
            ≤ distance ((0 : ℝ), (0 : ℝ)) ((0.511 : ℝ), (0 : ℝ))
        rw [hd, hmin]; norm_num)]
  simp only [cexPlayer, Player.mk.injEq, Prod.mk.injEq]
  rw [hd, hmin]
  norm_num

theorem cex_step2 :
    updatePlayerPos
        (⟨0, ((0.501 : ℝ), (0 : ℝ)), none, some ((0.511 : ℝ), (0 : ℝ)),
          (5.01 : ℝ)⟩ : Player) (0.1 : ℝ)
      = ⟨0, ((0.501 : ℝ), (0 : ℝ)), none, none, BASE_PLAYER_SPEED⟩ :=
  updatePlayerPos_arrive _ ((0.511 : ℝ), (0 : ℝ)) (0.1 : ℝ) rfl
    (by
      show distance ((0.501 : ℝ), (0 : ℝ)) ((0.511 : ℝ), (0 : ℝ)) ≤ 0.01
      rw [distance_axis 0.501 0.511 0 (by norm_num)]
      norm_num)

/-- C3 counterexample: from the origin with target (0.511, 0) and two steps
of the strictly positive deltaTime 0.1, the participant comes to rest
(moveTarget none) at position (0.501, 0), which is not the last non-null
move target — the arrival branch clears the target without snapping the
position onto it. -/
theorem arrival_not_exact_cex :
    (0 : ℝ) < 0.1
    ∧ (stepIter (0.1 : ℝ) 2 cexPlayer).moveTarget = none
    ∧ (stepIter (0.1 : ℝ) 2 cexPlayer).position ≠ ((0.511 : ℝ), (0 : ℝ)) := by
  have h1 : stepIter (0.1 : ℝ) 2 cexPlayer
      = ⟨0, ((0.501 : ℝ), (0 : ℝ)), none, none, BASE_PLAYER_SPEED⟩ := by
    show stepIter (0.1 : ℝ) 1 (updatePlayerPos cexPlayer 0.1) = _
    rw [cex_step1]
    exact cex_step2
  refine ⟨by norm_num, by rw [h1], ?_⟩
  rw [h1]
  intro heq
  have : (0.501 : ℝ) = 0.511 := congrArg Prod.fst heq
  norm_num at this

theorem reach_near (dt : ℝ) (p : Player) (t : ℝ × ℝ)
    (hmt : p.moveTarget = some t) (hd : distance p.position t ≤ 0.01) :
    (stepIter dt 1 p).moveTarget = none
    ∧ distance (stepIter dt 1 p).position t ≤ 0.01 := by
  have harr := updatePlayerPos_arrive p t dt hmt hd
  constructor
  · show (updatePlayerPos p dt).moveTarget = none
    rw [harr]
  · show distance (updatePlayerPos p dt).position t ≤ 0.01
    have hpos : (updatePlayerPos p dt).position = p.position := by rw [harr]
    rw [hpos]
    exact hd

theorem reach_aux (dt : ℝ) (hdt : 0 < dt) :
    ∀ N : ℕ, ∀ p : Player, ∀ t : ℝ × ℝ, p.moveTarget = some t →
      BASE_PLAYER_SPEED ≤ p.speed → p.speed ≤ MAX_SPEED →
      distance p.position t ≤ 0.01 + N * (BASE_PLAYER_SPEED * dt) →
      ∃ n, (stepIter dt n p).moveTarget = none
        ∧ distance (stepIter dt n p).position t ≤ 0.01 := by
  intro N
  induction N with
  | zero =>
    intro p t hmt _ _ hdist
    exact ⟨1, reach_near dt p t hmt (by simpa using hdist)⟩
  | succ N ih =>
    intro p t hmt h1 h2 hdist
    by_cases hnear : distance p.position t ≤ 0.01
    · exact ⟨1, reach_near dt p t hmt hnear⟩
    · push_neg at hnear
      have hacc : (0 : ℝ) ≤ ACCELERATION * dt :=
        mul_nonneg (by norm_num [ACCELERATION]) hdt.le
      have hsnew1 : BASE_PLAYER_SPEED
          ≤ min (p.speed + ACCELERATION * dt) MAX_SPEED :=
        le_min (by linarith) (by norm_num [BASE_PLAYER_SPEED, MAX_SPEED])
      have hsnew2 : min (p.speed + ACCELERATION * dt) MAX_SPEED ≤ MAX_SPEED :=
        min_le_right _ _
      have hmlow : BASE_PLAYER_SPEED * dt
          ≤ min (p.speed + ACCELERATION * dt) MAX_SPEED * dt :=
        mul_le_mul_of_nonneg_right hsnew1 hdt.le
      have hcast : ((N + 1 : ℕ) : ℝ) = (N : ℝ) + 1 := by push_cast; ring
      by_cases hov : min (p.speed + ACCELERATION * dt) MAX_SPEED * dt
          ≤ distance p.position t
      · have hstep := updatePlayerPos_mid p t dt hmt hnear hov
        have hposeq : (updatePlayerPos p dt).position
            = (p.position.1 + (t.1 - p.position.1) / distance p.position t
                * (min (p.speed + ACCELERATION * dt) MAX_SPEED * dt),
               p.position.2 + (t.2 - p.position.2) / distance p.position t
                * (min (p.speed + ACCELERATION * dt) MAX_SPEED * dt)) := by
          rw [hstep]
        have hmteq : (updatePlayerPos p dt).moveTarget = some t := by
          rw [hstep]; exact hmt
        have hspeedeq : (updatePlayerPos p dt).speed
            = min (p.speed + ACCELERATION * dt) MAX_SPEED := by
          rw [hstep]
        have hmid := distance_mid_step p.position t
          (min (p.speed + ACCELERATION * dt) MAX_SPEED * dt)
          (lt_trans (by norm_num) hnear)
        have hd1 : distance (updatePlayerPos p dt).position t
            = distance p.position t
              - min (p.speed + ACCELERATION * dt) MAX_SPEED * dt := by
          rw [hposeq, hmid, abs_of_nonneg (by linarith)]
        have hdist1 : distance (updatePlayerPos p dt).position t
            ≤ 0.01 + N * (BASE_PLAYER_SPEED * dt) := by
          rw [hd1]
          rw [hcast] at hdist
          nlinarith [hmlow]
        obtain ⟨n, hn1, hn2⟩ := ih (updatePlayerPos p dt) t hmteq
          (hspeedeq ▸ hsnew1) (hspeedeq ▸ hsnew2) hdist1
        refine ⟨n + 1, ?_, ?_⟩
        · simpa only [stepIter] using hn1
        · simpa only [stepIter] using hn2
      · push_neg at hov
        have hstep := updatePlayerPos_snap p t dt hmt hnear hov
        have hposeq : (updatePlayerPos p dt).position = t := by rw [hstep]
        have hmteq : (updatePlayerPos p dt).moveTarget = some t := by
          rw [hstep]; exact hmt
        have hspeedeq : (updatePlayerPos p dt).speed
            = min (p.speed + ACCELERATION * dt) MAX_SPEED := by
          rw [hstep]
        have hd1 : distance (updatePlayerPos p dt).position t = 0 := by
          rw [hposeq, distance_self]
        have hnn : (0 : ℝ) ≤ N * (BASE_PLAYER_SPEED * dt) := by
          have hb : (0 : ℝ) ≤ BASE_PLAYER_SPEED * dt :=
            mul_nonneg (by norm_num [BASE_PLAYER_SPEED]) hdt.le
          exact mul_nonneg (Nat.cast_nonneg N) hb
        have hdist1 : distance (updatePlayerPos p dt).position t
            ≤ 0.01 + N * (BASE_PLAYER_SPEED * dt) := by
          rw [hd1]
          linarith
        obtain ⟨n, hn1, hn2⟩ := ih (updatePlayerPos p dt) t hmteq
          (hspeedeq ▸ hsnew1) (hspeedeq ▸ hsnew2) hdist1
        refine ⟨n + 1, ?_, ?_⟩
        · simpa only [stepIter] using hn1
        · simpa only [stepIter] using hn2

/-- C3 as amended: for every start, non-null target, and fixed strictly
positive deltaTime, iterating the integrator reaches moveTarget none after
finitely many steps, with the final position within the 0.01 arrival band
of the last non-null move target (exact arrival does not hold; see the
counterexample). -/
theorem moveTarget_terminates (p : Player) (t : ℝ × ℝ) (dt : ℝ)
    (hmt : p.moveTarget = some t)
    (hs1 : BASE_PLAYER_SPEED ≤ p.speed) (hs2 : p.speed ≤ MAX_SPEED)
    (hdt : 0 < dt) :
    ∃ n, (stepIter dt n p).moveTarget = none
      ∧ distance (stepIter dt n p).position t ≤ 0.01 := by
  have hBdt : 0 < BASE_PLAYER_SPEED * dt :=
    mul_pos (by norm_num [BASE_PLAYER_SPEED]) hdt
  obtain ⟨N, hN⟩ := exists_nat_ge (distance p.position t / (BASE_PLAYER_SPEED * dt))
  refine reach_aux dt hdt N p t hmt hs1 hs2 ?_
  rw [div_le_iff₀ hBdt] at hN
  linarith

/-- C3 witness for the amended statement: a participant at the origin
heading to (1, 0) at base speed with deltaTime one second reaches rest
within the arrival band in finitely many steps. -/
theorem moveTarget_terminates_witness :
    ∃ n, (stepIter 1 n
        ⟨0, ((0 : ℝ), (0 : ℝ)), none, some ((1 : ℝ), (0 : ℝ)), BASE_PLAYER_SPEED⟩).moveTarget
        = none
      ∧ distance (stepIter 1 n
          ⟨0, ((0 : ℝ), (0 : ℝ)), none, some ((1 : ℝ), (0 : ℝ)), BASE_PLAYER_SPEED⟩).position
          ((1 : ℝ), (0 : ℝ)) ≤ 0.01 :=
  moveTarget_terminates _ ((1 : ℝ), (0 : ℝ)) 1 rfl (le_refl _)
    (by norm_num [BASE_PLAYER_SPEED, MAX_SPEED]) (by norm_num)

end GameCore
